import Mathlib

/-!
Verification of the event-list comparison core of pytest-structlog
(`pytest_structlog.py`): the matching predicates `is_submap`, `is_subseq`,
`is_subseq_of_submaps`, the `EventList` comparison container, the level
name/number conversion helpers, level filtering, and the `has` membership
helper of `StructuredLogCapture`.

Captured events are Python dicts from string keys to values; they are
modelled as association lists with unique keys (a canonical representative
of the dict), with values drawn from the strings and integers that the
comparison layer manipulates.
-/

/-- Values stored in captured events: severity levels are strings or
integers, and context values are compared only by value equality, so a
type of strings and integers with decidable equality models them. -/
inductive Value : Type where
  | str : String → Value
  | int : Int → Value
deriving DecidableEq

/-- A captured event: a Python `dict` modelled as an association list with
unique keys (`d.get(k)` becomes `List.lookup k d`). -/
abbrev Event : Type := List (String × Value)

/-- Source `is_submap(d1, d2)`: is every pair from `d1` also in `d2`?
Source: `all(d2.get(k, absent) == v for k, v in d1.items())`; the `absent`
sentinel compares unequal to every stored value, so the test is exactly
`lookup` success with an equal value. -/
def is_submap (d1 d2 : Event) : Bool :=
  d1.all fun p => d2.lookup p.1 == some p.2

/-- The shared forward-cursor loop `it = iter(l2); all(any(r(d, e) for e in it) for d in l1)`
used by both `is_subseq` (where the element test is `==`) and
`is_subseq_of_submaps` (where the element test is `is_submap`): each element
of `l1` consumes cursor elements up to and including its first match, and the
whole test fails as soon as the cursor is exhausted before a match. -/
def greedySubseq {α β : Type} (r : α → β → Bool) : List α → List β → Bool
  | [], _ => true
  | _ :: _, [] => false
  | a :: as, b :: bs =>
    if r a b then greedySubseq r as bs else greedySubseq r (a :: as) bs

/-- Source `is_subseq(l1, l2)`: is every element of `l1` also in `l2`?
(non-unique and order sensitive). Source: `it = iter(l2); all(d in it for d in l1)`,
where `d in it` advances the shared iterator until an element equal to `d`
is found. -/
def is_subseq {α : Type} [BEq α] (l1 l2 : List α) : Bool :=
  greedySubseq (fun a b => a == b) l1 l2

/-- Source `is_subseq_of_submaps(l1, l2)`: is there a sub-sequence `l3` of `l2`
where each element of `l1` is a submap of the corresponding element of `l3`?
Source: `it = iter(l2); all(any(is_submap(d, e) for e in it) for d in l1)`. -/
def is_subseq_of_submaps (l1 l2 : List Event) : Bool :=
  greedySubseq is_submap l1 l2

/-- Spec-side relation: there exists a (not necessarily contiguous)
selection `l3` of elements of `l2`, in the same relative order, whose
elements pairwise satisfy `r` against the elements of `l1`. -/
def Matches {α β : Type} (r : α → β → Bool) (l1 : List α) (l2 : List β) : Prop :=
  ∃ l3 : List β, l3.Sublist l2 ∧ List.Forall₂ (fun a b => r a b = true) l1 l3

theorem greedySubseq_sound {α β : Type} (r : α → β → Bool) :
    ∀ (l2 : List β) (l1 : List α), greedySubseq r l1 l2 = true → Matches r l1 l2 := by
  intro l2
  induction l2 with
  | nil =>
    intro l1 h
    cases l1 with
    | nil => exact ⟨[], List.Sublist.refl _, List.Forall₂.nil⟩
    | cons a as => simp [greedySubseq] at h
  | cons b bs ih =>
    intro l1 h
    cases l1 with
    | nil => exact ⟨[], List.nil_sublist _, List.Forall₂.nil⟩
    | cons a as =>
      by_cases hr : r a b = true
      · rw [greedySubseq, if_pos hr] at h
        obtain ⟨l3, hsub, hf⟩ := ih as h
        exact ⟨b :: l3, hsub.cons₂ b, List.Forall₂.cons hr hf⟩
      · rw [greedySubseq, if_neg hr] at h
        obtain ⟨l3, hsub, hf⟩ := ih (a :: as) h
        exact ⟨l3, hsub.cons b, hf⟩

theorem greedySubseq_complete {α β : Type} (r : α → β → Bool) :
    ∀ (l2 : List β) (l1 : List α) (l3 : List β), l3.Sublist l2 →
      List.Forall₂ (fun a b => r a b = true) l1 l3 →
      greedySubseq r l1 l2 = true := by
  intro l2
  induction l2 with
  | nil =>
    intro l1 l3 hsub hf
    rw [List.sublist_nil] at hsub
    subst hsub
    cases hf
    simp [greedySubseq]
  | cons b bs ih =>
    intro l1 l3 hsub hf
    cases hf with
    | nil => simp [greedySubseq]
    | @cons a c as cs hac hf =>
      cases hsub with
      | cons _ hs =>
        by_cases hr : r a b = true
        · rw [greedySubseq, if_pos hr]
          exact ih as cs (List.sublist_of_cons_sublist hs) hf
        · rw [greedySubseq, if_neg hr]
          exact ih (a :: as) (c :: cs) hs (List.Forall₂.cons hac hf)
      | cons₂ _ hs =>
        rw [greedySubseq, if_pos hac]
        exact ih as cs hs hf

theorem greedySubseq_iff {α β : Type} (r : α → β → Bool) (l1 : List α) (l2 : List β) :
    greedySubseq r l1 l2 = true ↔ Matches r l1 l2 :=
  ⟨greedySubseq_sound r l2 l1, fun ⟨l3, hs, hf⟩ => greedySubseq_complete r l2 l1 l3 hs hf⟩

/-- The `EventList` container: a list of events plus the `partial_match`
flag (field `pmatch` here) chosen at construction, which selects
`is_subseq_of_submaps` (when true) or `is_subseq` (when false) as the
`_compare` predicate. -/
structure EventList : Type where
  events : List Event
  pmatch : Bool
deriving DecidableEq

/-- The `_compare` attribute of `EventList`:
`is_subseq_of_submaps if partial_match else is_subseq`. -/
def ev_compare (pm : Bool) (l1 l2 : List Event) : Bool :=
  if pm then is_subseq_of_submaps l1 l2 else is_subseq l1 l2

/-- The element test selected by the `partial_match` flag: submap
containment when partial, full value equality otherwise. -/
def matchRel (pm : Bool) : Event → Event → Bool :=
  if pm then is_submap else fun a b => a == b

/-- Method `__le__`: `self._compare(self, other)`. -/
def EventList.le (A B : EventList) : Bool :=
  ev_compare A.pmatch A.events B.events

/-- Method `__lt__`: `len(self) < len(other) and self._compare(self, other)`. -/
def EventList.lt (A B : EventList) : Bool :=
  decide (A.events.length < B.events.length) && ev_compare A.pmatch A.events B.events

/-- Method `__ge__`: `self._compare(other, self)`. -/
def EventList.ge (A B : EventList) : Bool :=
  ev_compare A.pmatch B.events A.events

/-- Method `__gt__`: `len(self) > len(other) and self._compare(other, self)`. -/
def EventList.gt (A B : EventList) : Bool :=
  decide (B.events.length < A.events.length) && ev_compare A.pmatch B.events A.events

/-- Method `__eq__`: `len(self) == len(other) and self._compare(other, self)`. -/
def EventList.eq (A B : EventList) : Bool :=
  (A.events.length == B.events.length) && ev_compare A.pmatch B.events A.events

/-- The name-to-number table consulted by `logging.getLevelName` when it is
passed a string: CPython's `logging._nameToLevel`. -/
def nameToLevel (s : String) : Option Int :=
  if s = "CRITICAL" then some 50
  else if s = "FATAL" then some 50
  else if s = "ERROR" then some 40
  else if s = "WARN" then some 30
  else if s = "WARNING" then some 30
  else if s = "INFO" then some 20
  else if s = "DEBUG" then some 10
  else if s = "NOTSET" then some 0
  else none

/-- The number-to-name table consulted by `logging.getLevelName` when it is
passed an integer: CPython's `logging._levelToName`. -/
def levelToName (n : Int) : Option String :=
  if n = 50 then some "CRITICAL"
  else if n = 40 then some "ERROR"
  else if n = 30 then some "WARNING"
  else if n = 20 then some "INFO"
  else if n = 10 then some "DEBUG"
  else if n = 0 then some "NOTSET"
  else none

/-- Python `str.upper()` on the ASCII strings handled here: uppercase each
character. -/
def pyUpper (s : String) : String :=
  ⟨s.data.map Char.toUpper⟩

/-- Python `str.lower()` on the ASCII strings handled here: lowercase each
character. -/
def pyLower (s : String) : String :=
  ⟨s.data.map Char.toLower⟩

/-- Source `level_to_number(level)`: an integer is returned unchanged; a string is
uppercased and looked up via `logging.getLevelName`, which returns the level
number for a known name and the string `"Level {name}"` otherwise — the
string case becomes `ValueError("Unknown level name " + level)`. -/
def level_to_number : Value → Except String Int
  | .int n => .ok n
  | .str s =>
    match nameToLevel (pyUpper s) with
    | some n => .ok n
    | none => .error ("Unknown level name " ++ s)

/-- Source `level_to_name(level)`: a string is lowercased unvalidated; an integer
goes through `logging.getLevelName` (known number: its name; unknown:
`"Level {n}"`) and the result is lowercased. -/
def level_to_name : Value → String
  | .str s => pyLower s
  | .int n => pyLower ((levelToName n).getD ("Level " ++ toString n))

/-- Subscript `event["level"]`: lookup of the `"level"` key, a `KeyError` when the key
is missing. -/
def getLevelValue (e : Event) : Except String Value :=
  match e.lookup "level" with
  | some v => .ok v
  | none => .error "KeyError: level"

/-- The level number of one event as computed inside `filter_by_level`:
`level_to_number(event["level"])`. -/
def eventLevelNum (e : Event) : Except String Int :=
  match getLevelValue e with
  | .error msg => .error msg
  | .ok v => level_to_number v

/-- Does `level_to_number(event["level"])` succeed on this event? -/
def levelOk (e : Event) : Bool :=
  match eventLevelNum e with
  | .ok _ => true
  | .error _ => false

/-- The level number of an event, defaulted to 0 where the conversion
fails (used only to express the filtering result of total inputs). -/
def levelOfD (e : Event) : Int :=
  match eventLevelNum e with
  | .ok n => n
  | .error _ => 0

/-- The generator `(event for event in self if level_to_number(event["level"]) >= level)`
consumed in order by the list constructor: the first conversion failure
propagates as the raised error. -/
def filterEvents (threshold : Int) : List Event → Except String (List Event)
  | [] => .ok []
  | e :: es =>
    match getLevelValue e with
    | .error msg => .error msg
    | .ok v =>
      match level_to_number v with
      | .error msg => .error msg
      | .ok n =>
        match filterEvents threshold es with
        | .error msg => .error msg
        | .ok rest => .ok (if n ≥ threshold then e :: rest else rest)

/-- Source `filter_by_level(level)`: convert the threshold, keep the events of at
least that level, and rebuild an `EventList` with the same `partial_match`
flag. -/
def EventList.filter_by_level (l : EventList) (level : Value) : Except String EventList :=
  match level_to_number level with
  | .error msg => .error msg
  | .ok t =>
    match filterEvents t l.events with
    | .error msg => .error msg
    | .ok evs => .ok ⟨evs, l.pmatch⟩

/-- Method `infos()`: `filter_by_level(logging.INFO)`. -/
def EventList.infos (l : EventList) : Except String EventList :=
  l.filter_by_level (.int 20)

/-- Method `warnings()`: `filter_by_level(logging.WARNING)`. -/
def EventList.warnings (l : EventList) : Except String EventList :=
  l.filter_by_level (.int 30)

/-- Method `errors()`: `filter_by_level(logging.ERROR)`. -/
def EventList.errors (l : EventList) : Except String EventList :=
  l.filter_by_level (.int 40)

/-- Method `criticals()`: `filter_by_level(logging.CRITICAL)`. -/
def EventList.criticals (l : EventList) : Except String EventList :=
  l.filter_by_level (.int 50)

/-- Python dict assignment `context["event"] = message` on the
association-list model: the key is bound to the new value and any previous
binding is dropped. -/
def setKey (k : String) (v : Value) (d : Event) : Event :=
  (k, v) :: d.filter (fun p => p.1 != k)

/-- Method `StructuredLogCapture.has(message, **context)`:
`context["event"] = message; return any(is_submap(context, e) for e in self.events)`. -/
def has (events : List Event) (message : Value) (context : Event) : Bool :=
  events.any fun e => is_submap (setKey "event" message context) e

/-- Modelled from the spec's words for the C3 comparison only: the union
mapping written `{event: message, **context}`, in which a binding of
`"event"` already present in `context` overrides the `message` entry
(Python dict-display semantics). -/
def spec_has_union (message : Value) (context : Event) : Event :=
  if (context.lookup "event").isSome then context else ("event", message) :: context

theorem mem_of_lookup {l : Event} {k : String} {v : Value}
    (h : l.lookup k = some v) : (k, v) ∈ l := by
  induction l with
  | nil => simp at h
  | cons p ps ih =>
    obtain ⟨a, b⟩ := p
    rw [List.lookup_cons] at h
    by_cases hk : (k == a) = true
    · simp [hk] at h
      simp [beq_iff_eq.mp hk, h]
    · simp [hk] at h
      exact List.mem_cons_of_mem _ (ih h)

theorem lookup_of_mem_nodup {l : Event} {k : String} {v : Value}
    (hn : (l.map Prod.fst).Nodup) (hm : (k, v) ∈ l) : l.lookup k = some v := by
  induction l with
  | nil => simp at hm
  | cons p ps ih =>
    obtain ⟨a, b⟩ := p
    simp only [List.map_cons, List.nodup_cons] at hn
    rcases List.mem_cons.mp hm with h | h
    · cases h
      simp
    · have hka : (k == a) = false := by
        refine beq_eq_false_iff_ne.mpr ?_
        rintro rfl
        exact hn.1 (List.mem_map_of_mem Prod.fst h)
      rw [List.lookup_cons, hka]
      exact ih hn.2 h

theorem is_submap_iff_lookup {d1 d2 : Event} (hn : (d1.map Prod.fst).Nodup) :
    is_submap d1 d2 = true ↔ ∀ k v, d1.lookup k = some v → d2.lookup k = some v := by
  rw [is_submap, List.all_eq_true]
  constructor
  · intro h k v hkv
    simpa using h (k, v) (mem_of_lookup hkv)
  · intro h p hp
    obtain ⟨k, v⟩ := p
    simpa using h k v (lookup_of_mem_nodup hn hp)

theorem subseq_sublist_helper {α : Type} [BEq α] [LawfulBEq α] (l1 l2 : List α) :
    is_subseq l1 l2 = true ↔ l1.Sublist l2 := by
  rw [is_subseq, greedySubseq_iff]
  constructor
  · rintro ⟨l3, hs, hf⟩
    have hf2 : List.Forall₂ (fun a b => a = b) l1 l3 :=
      hf.imp (fun _ _ h => beq_iff_eq.mp h)
    have he : l1 = l3 := List.forall₂_eq_eq_eq ▸ hf2
    rwa [he]
  · intro hs
    exact ⟨l1, hs, List.forall₂_same.mpr (fun x _ => beq_self_eq_true x)⟩

/-- C1: `is_subseq(expected_seq, actual_seq)` returns true iff there is an
order-preserving (not necessarily contiguous) selection of elements of
`actual_seq` pairwise equal by value to the elements of `expected_seq`,
i.e. the greedy single-forward-cursor pass decides exactly the
order-preserving-subsequence relation; in particular the empty expected
sequence matches every actual sequence. -/
theorem is_subseq_iff_sublist {α : Type} [BEq α] [LawfulBEq α] (l1 l2 : List α) :
    (is_subseq l1 l2 = true ↔ l1.Sublist l2) ∧ is_subseq ([] : List α) l2 = true :=
  ⟨subseq_sublist_helper l1 l2, by simp [is_subseq, greedySubseq]⟩

theorem is_subseq_iff_sublist_witness :
    is_subseq [(2 : Int)] [1, 2, 3] = true ∧ is_subseq ([] : List Int) [1, 2, 3] = true :=
  ⟨(is_subseq_iff_sublist [(2 : Int)] [1, 2, 3]).1.mpr (by decide),
   (is_subseq_iff_sublist [(2 : Int)] [1, 2, 3]).2⟩

/-- C2 (counterexample to the claim): no pair of sequences witnesses a
false negative of `is_subseq_of_submaps` — whenever an order-preserving
selection of pairwise supermaps exists, the greedy shared-cursor pass
returns true, contradicting the claim that some input makes it return
false despite such a selection existing. -/
theorem no_false_negative_subseq_of_submaps :
    ¬ ∃ (l1 l2 : List Event),
        Matches is_submap l1 l2 ∧ is_subseq_of_submaps l1 l2 = false := by
  rintro ⟨l1, l2, hm, hfalse⟩
  have htrue := (greedySubseq_iff is_submap l1 l2).mpr hm
  rw [is_subseq_of_submaps, htrue] at hfalse
  exact Bool.true_eq_false.mp hfalse

/-- C2 (amended): the greedy shared-forward-cursor policy is complete as
well as sound: `is_subseq_of_submaps(expected_seq, actual_seq)` returns
true exactly when an order-preserving selection of elements of
`actual_seq` exists whose elements are pairwise supermaps of the elements
of `expected_seq`; it never produces a false negative. -/
theorem is_subseq_of_submaps_iff_matches (l1 l2 : List Event) :
    is_subseq_of_submaps l1 l2 = true ↔ Matches is_submap l1 l2 :=
  greedySubseq_iff is_submap l1 l2

/-- C5: `is_submap(expected, actual)` is true iff every key of `expected`
is present in `actual` with an equal value (keys present only in `actual`
are ignored, the characterization being purely in terms of lookups on
`expected`); and the empty expected mapping is a submap of every mapping. -/
theorem is_submap_characterization (d1 d2 : Event) :
    ((d1.map Prod.fst).Nodup →
      (is_submap d1 d2 = true ↔
        ∀ k v, d1.lookup k = some v → d2.lookup k = some v)) ∧
    is_submap [] d2 = true :=
  ⟨fun hn => is_submap_iff_lookup hn, rfl⟩

theorem is_submap_characterization_witness :
    is_submap [] [("b", Value.int 2)] = true :=
  ((is_submap_characterization [] [("b", Value.int 2)]).1 (by decide)).mpr
    (fun k v h => by simp at h)

theorem is_submap_setKey_iff {m : Value} {context e : Event}
    (hn : (context.map Prod.fst).Nodup) :
    is_submap (setKey "event" m context) e = true ↔
      (e.lookup "event" = some m ∧
        ∀ k v, k ≠ "event" → context.lookup k = some v → e.lookup k = some v) := by
  rw [is_submap, List.all_eq_true]
  constructor
  · intro h
    constructor
    · simpa using h ("event", m) (by simp [setKey])
    · intro k v hk hkv
      have hmem : (k, v) ∈ setKey "event" m context := by
        simp only [setKey, List.mem_cons, List.mem_filter]
        exact Or.inr ⟨mem_of_lookup hkv, by simpa using hk⟩
      simpa using h (k, v) hmem
  · rintro ⟨hev, hrest⟩ p hp
    obtain ⟨k, v⟩ := p
    rcases List.mem_cons.mp hp with h | h
    · cases h
      simpa using hev
    · have hf := List.mem_filter.mp h
      have hk : k ≠ "event" := by simpa using hf.2
      simpa using hrest k v hk (lookup_of_mem_nodup hn hf.1)

/-- C3 (counterexample to the claim): with a context that itself binds the
key `"event"`, the union mapping `{event: message, **context}` of the claim
lets the context entry win, while `has` overwrites it with `message`: on
the captured events `[{"event": "x"}]` with `message = "m"` and
`context = {"event": "x"}`, some captured event is a submap of the claimed
union, yet `has` returns false. -/
theorem has_union_counterexample :
    has [[("event", Value.str "x")]] (Value.str "m") [("event", Value.str "x")] = false ∧
    (List.any [[("event", Value.str "x")]]
      (fun e => is_submap (spec_has_union (Value.str "m") [("event", Value.str "x")]) e))
      = true := by
  decide

/-- C3 (amended): `has(message, **context)` returns true iff some captured
event is a submap of the mapping obtained from `context` by setting the key
`"event"` to `message` (the message overrides any `"event"` entry supplied
in the context); equivalently, iff some captured event maps `"event"` to
`message` and agrees with `context` on every other context key. -/
theorem has_iff_lookup (events : List Event) (m : Value) (context : Event)
    (hn : (context.map Prod.fst).Nodup) :
    has events m context = true ↔
      ∃ e, e ∈ events ∧ e.lookup "event" = some m ∧
        ∀ k v, k ≠ "event" → context.lookup k = some v → e.lookup k = some v := by
  rw [has, List.any_eq_true]
  constructor
  · rintro ⟨e, he, hsub⟩
    obtain ⟨h1, h2⟩ := (is_submap_setKey_iff hn).mp hsub
    exact ⟨e, he, h1, h2⟩
  · rintro ⟨e, he, h1, h2⟩
    exact ⟨e, he, (is_submap_setKey_iff hn).mpr ⟨h1, h2⟩⟩

theorem has_iff_lookup_witness :
    has [[("event", Value.str "hello"), ("x", Value.int 1)]]
      (Value.str "hello") [("x", Value.int 1)] = true := by
  refine (has_iff_lookup _ _ _ (by decide)).mpr ?_
  refine ⟨[("event", Value.str "hello"), ("x", Value.int 1)], by simp, by simp, ?_⟩
  intro k v hk hkv
  by_cases hx : (k == "x") = true
  · have hkx := beq_iff_eq.mp hx
    subst hkx
    rw [List.lookup_cons] at hkv
    simp at hkv
    subst hkv
    decide
  · rw [List.lookup_cons] at hkv
    simp [hx] at hkv

/-- C4 (counterexample to the claim): under `partial_match = true`, take
`A = [{"a": 1}]` and `B = [{}]`; then `A == B` returns true (equal lengths
and `_compare(B, A)` holds) although `A` is not a match-subsequence of `B`,
refuting the claim that `A == B` requires both `_compare(A, B)` and
`_compare(B, A)`. -/
theorem eventlist_eq_counterexample :
    EventList.eq ⟨[[("a", Value.int 1)]], true⟩ ⟨[[]], true⟩ = true ∧
    ev_compare true [[("a", Value.int 1)]] [[]] = false := by
  decide

/-- C4 (amended): `A == B` returns true iff `A` and `B` have the same
length and `B` is a match-subsequence of `A` (`_compare(B, A)` only); when
`partial_match` is false this single containment already entails the
reverse containment `_compare(A, B)` as well, but when `partial_match` is
true it need not. -/
theorem eventlist_eq_iff (A B : EventList) :
    EventList.eq A B = true ↔
      (A.events.length = B.events.length ∧
        ev_compare A.pmatch B.events A.events = true ∧
        (A.pmatch = false → ev_compare A.pmatch A.events B.events = true)) := by
  rw [EventList.eq, Bool.and_eq_true, beq_iff_eq]
  constructor
  · rintro ⟨hlen, hcmp⟩
    refine ⟨hlen, hcmp, ?_⟩
    intro hpm
    rw [hpm] at hcmp ⊢
    rw [ev_compare, if_neg (by simp)] at hcmp ⊢
    have hsub : B.events.Sublist A.events := (subseq_sublist_helper _ _).mp hcmp
    have heq : B.events = A.events := hsub.eq_of_length hlen.symm
    rw [heq]
    exact (subseq_sublist_helper _ _).mpr (List.Sublist.refl _)
  · rintro ⟨hlen, hcmp, _⟩
    exact ⟨hlen, hcmp⟩

theorem eventlist_eq_iff_witness :
    EventList.eq ⟨[[("a", Value.int 1)]], false⟩ ⟨[[("a", Value.int 1)]], false⟩ = true :=
  (eventlist_eq_iff _ _).mpr ⟨rfl, by decide, fun _ => by decide⟩

theorem ev_compare_eq_greedy (pm : Bool) (l1 l2 : List Event) :
    ev_compare pm l1 l2 = greedySubseq (matchRel pm) l1 l2 := by
  cases pm <;>
    simp [ev_compare, matchRel, is_subseq, is_subseq_of_submaps]

/-- C8: `A > B` returns true iff `len(A) > len(B)` and `B` is a
match-subsequence of `A` (some order-preserving selection of elements of
`A` matches the elements of `B` pairwise under the comparison mode of
`A`); in particular equal-length sequences never satisfy `A > B`, even
when the containment `_compare(B, A)` holds. -/
theorem eventlist_gt_iff (A B : EventList) :
    (EventList.gt A B = true ↔
      (B.events.length < A.events.length ∧
        Matches (matchRel A.pmatch) B.events A.events)) ∧
    (A.events.length = B.events.length → EventList.gt A B = false) := by
  constructor
  · rw [EventList.gt, Bool.and_eq_true, decide_eq_true_iff,
      ev_compare_eq_greedy, greedySubseq_iff]
  · intro hlen
    rw [EventList.gt, hlen]
    simp

theorem eventlist_gt_iff_witness :
    EventList.gt ⟨[[]], false⟩ ⟨[], false⟩ = true :=
  (eventlist_gt_iff ⟨[[]], false⟩ ⟨[], false⟩).1.mpr
    ⟨by decide, ⟨[], List.nil_sublist _, List.Forall₂.nil⟩⟩

/-- C6: `level_to_number` returns an integer input unchanged; a
case-insensitive known level name yields the corresponding severity
number; a string naming no known level yields the unknown-level error
(never a silent sentinel) whose message carries the original
non-uppercased input — and converting `"unknown"` yields exactly the
message `"Unknown level name unknown"`. -/
theorem level_to_number_spec :
    (∀ n : Int, level_to_number (.int n) = .ok n) ∧
    (∀ (s : String) (n : Int), nameToLevel (pyUpper s) = some n →
      level_to_number (.str s) = .ok n) ∧
    (∀ s : String, nameToLevel (pyUpper s) = none →
      level_to_number (.str s) = .error ("Unknown level name " ++ s)) ∧
    level_to_number (.str "unknown") = .error "Unknown level name unknown" := by
  refine ⟨fun n => rfl, fun s n h => ?_, fun s h => ?_, rfl⟩
  · simp [level_to_number, h]
  · simp [level_to_number, h]

theorem level_to_number_spec_witness :
    level_to_number (.str "Info") = .ok 20 :=
  level_to_number_spec.2.1 "Info" 20 rfl

theorem toLower_toUpper (c : Char) : c.toUpper.toLower = c.toLower := by
  by_cases h : c.toNat ≥ 97 ∧ c.toNat ≤ 122
  · have hv : (c.toNat - 32).isValidChar := Or.inl (by omega)
    have ht : (Char.ofNat (c.toNat - 32)).toNat = c.toNat - 32 := by
      rw [Char.ofNat, dif_pos hv]
      rfl
    rw [Char.toUpper]
    simp only [if_pos h]
    rw [Char.toLower, ht, if_pos (by omega : c.toNat - 32 ≥ 65 ∧ c.toNat - 32 ≤ 90)]
    have hn : c.toNat - 32 + 32 = c.toNat := by omega
    rw [hn, Char.ofNat_toNat, Char.toLower, if_neg (by omega)]
  · rw [Char.toUpper, if_neg h]

theorem pyLower_pyUpper (s : String) : pyLower (pyUpper s) = pyLower s := by
  rw [pyUpper, pyLower, pyLower]
  congr 1
  show (s.data.map Char.toUpper).map Char.toLower = s.data.map Char.toLower
  rw [List.map_map]
  exact List.map_congr_left (fun c _ => toLower_toUpper c)

/-- C10 (counterexample to the claim): `"warn"` is a recognized level name
(`level_to_number` maps it to 30), but `level_to_name(30)` is `"warning"`,
which is not `"warn"` lowercased — the name round-trip fails on the alias. -/
theorem level_roundtrip_counterexample :
    level_to_number (.str "warn") = .ok 30 ∧
    level_to_name (.int 30) = "warning" ∧
    pyLower "warn" = "warn" ∧ "warning" ≠ "warn" :=
  ⟨rfl, by decide, by decide, by decide⟩

theorem nameToLevel_enum (u : String) (n : Int) (h : nameToLevel u = some n) :
    (u = "CRITICAL" ∧ n = 50) ∨ (u = "FATAL" ∧ n = 50) ∨ (u = "ERROR" ∧ n = 40) ∨
    (u = "WARN" ∧ n = 30) ∨ (u = "WARNING" ∧ n = 30) ∨ (u = "INFO" ∧ n = 20) ∨
    (u = "DEBUG" ∧ n = 10) ∨ (u = "NOTSET" ∧ n = 0) := by
  rw [nameToLevel] at h
  split_ifs at h <;> simp_all

/-- C10 (amended): the name round-trip holds for every recognized level
name except the aliases `"fatal"` and `"warn"` (any case), whose numbers
map back to `"critical"` and `"warning"`: whenever `level_to_number`
accepts `s` and the uppercasing of `s` is neither `"FATAL"` nor `"WARN"`,
`level_to_name(level_to_number(s))` equals `s` lowercased; and for every
standard level number `n` in {10, 20, 30, 40, 50},
`level_to_number(level_to_name(n))` equals `n`. -/
theorem level_roundtrip_amended :
    (∀ (s : String) (n : Int), level_to_number (.str s) = .ok n →
      pyUpper s ≠ "FATAL" → pyUpper s ≠ "WARN" →
      level_to_name (.int n) = pyLower s) ∧
    (∀ n : Int, n ∈ ([10, 20, 30, 40, 50] : List Int) →
      level_to_number (.str (level_to_name (.int n))) = .ok n) := by
  constructor
  · intro s n hok hf hw
    have hnl : nameToLevel (pyUpper s) = some n := by
      simp only [level_to_number] at hok
      cases hnt : nameToLevel (pyUpper s) with
      | none => rw [hnt] at hok; simp at hok
      | some m =>
        rw [hnt] at hok
        simpa using hok
    rcases nameToLevel_enum _ _ hnl with ⟨hu, rfl⟩ | ⟨hu, rfl⟩ | ⟨hu, rfl⟩ |
      ⟨hu, rfl⟩ | ⟨hu, rfl⟩ | ⟨hu, rfl⟩ | ⟨hu, rfl⟩ | ⟨hu, rfl⟩ <;>
      first
      | exact absurd hu hf
      | exact absurd hu hw
      | (rw [← pyLower_pyUpper s, hu]; try decide)
  · intro n hn
    simp only [List.mem_cons, List.not_mem_nil, or_false] at hn
    rcases hn with rfl | rfl | rfl | rfl | rfl <;> rfl

theorem level_roundtrip_amended_witness :
    level_to_name (.int 20) = pyLower "Info" :=
  level_roundtrip_amended.1 "Info" 20 rfl (by decide) (by decide)

theorem filterEvents_ok (t : Int) (evs : List Event)
    (h : ∀ e ∈ evs, levelOk e = true) :
    filterEvents t evs = .ok (evs.filter fun e => decide (levelOfD e ≥ t)) := by
  induction evs with
  | nil => rfl
  | cons e es ih =>
    have he := h e (List.mem_cons_self e es)
    have hes := ih fun x hx => h x (List.mem_cons_of_mem e hx)
    cases hE : eventLevelNum e with
    | error msg => rw [levelOk, hE] at he; exact absurd he (by simp)
    | ok n =>
      cases hg : getLevelValue e with
      | error msg => rw [eventLevelNum, hg] at hE; exact absurd hE (by simp)
      | ok v =>
        have hlv : level_to_number v = .ok n := by
          rw [eventLevelNum, hg] at hE
          exact hE
        have hld : levelOfD e = n := by rw [levelOfD, hE]
        simp only [filterEvents, hg, hlv, hes, List.filter_cons, hld]
        by_cases hcmp : n ≥ t
        · simp [hcmp]
        · simp [hcmp]

/-- C7: on an `EventList` whose events all carry recognized levels,
`filter_by_level` returns a new sequence with the same `partial_match`
flag containing exactly the events whose level number is at least the
threshold, in the original insertion order (the result is the order-
preserving filter of the original list); moreover filtering is monotonic
in the threshold: the result at WARNING (30) is a subsequence, in the same
relative order, of the result at INFO (20). -/
theorem filter_by_level_spec (l : EventList) (t : Int)
    (h : ∀ e ∈ l.events, levelOk e = true) :
    l.filter_by_level (.int t) =
      .ok ⟨l.events.filter fun e => decide (levelOfD e ≥ t), l.pmatch⟩ ∧
    ∃ W I : EventList,
      l.filter_by_level (.int 30) = .ok W ∧ l.filter_by_level (.int 20) = .ok I ∧
      W.events.Sublist I.events ∧ W.pmatch = l.pmatch ∧ I.pmatch = l.pmatch := by
  have key : ∀ u : Int, l.filter_by_level (.int u) =
      .ok ⟨l.events.filter fun e => decide (levelOfD e ≥ u), l.pmatch⟩ := by
    intro u
    simp only [EventList.filter_by_level, level_to_number,
      filterEvents_ok u l.events h]
  refine ⟨key t, ⟨_, _, key 30, key 20, ?_, rfl, rfl⟩⟩
  exact List.monotone_filter_right _ fun e he => by
    simp only [decide_eq_true_eq] at he ⊢
    omega

theorem filter_by_level_spec_witness :
    EventList.filter_by_level
      ⟨[[("level", Value.str "info"), ("event", Value.str "a")],
        [("level", Value.str "warning"), ("event", Value.str "b")]], false⟩ (.int 30) =
    .ok ⟨[[("level", Value.str "warning"), ("event", Value.str "b")]], false⟩ :=
  (filter_by_level_spec
    ⟨[[("level", Value.str "info"), ("event", Value.str "a")],
      [("level", Value.str "warning"), ("event", Value.str "b")]], false⟩ 30
    (by decide)).1.trans (by rfl)

theorem filterEvents_unknown (t : Int) :
    ∀ evs : List Event,
      (∀ e ∈ evs, ∃ v, getLevelValue e = .ok v) →
      (∃ e ∈ evs, ∃ s, getLevelValue e = .ok (.str s) ∧
        nameToLevel (pyUpper s) = none) →
      ∃ s, filterEvents t evs = .error ("Unknown level name " ++ s) ∧
        nameToLevel (pyUpper s) = none := by
  intro evs
  induction evs with
  | nil =>
    rintro _ ⟨e, he, _⟩
    simp at he
  | cons e es ih =>
    rintro hall hbad
    obtain ⟨v, hg⟩ := hall e (List.mem_cons_self e es)
    cases hn : level_to_number v with
    | error msg =>
      cases v with
      | int m => simp [level_to_number] at hn
      | str s =>
        cases hnt : nameToLevel (pyUpper s) with
        | some m => simp [level_to_number, hnt] at hn
        | none =>
          have hmsg : msg = "Unknown level name " ++ s := by
            simp [level_to_number, hnt] at hn
            exact hn.symm
          refine ⟨s, ?_, hnt⟩
          simp only [filterEvents, hg, hn, hmsg]
    | ok n =>
      obtain ⟨e', he', s, hgs, hns⟩ := hbad
      rcases List.mem_cons.mp he' with rfl | hmem
      · rw [hg] at hgs
        have hv : v = .str s := by simpa using hgs
        rw [hv] at hn
        simp [level_to_number, hns] at hn
      · obtain ⟨s', hrec, hns'⟩ :=
          ih (fun x hx => hall x (List.mem_cons_of_mem e hx)) ⟨e', hmem, s, hgs, hns⟩
        refine ⟨s', ?_, hns'⟩
        simp only [filterEvents, hg, hn, hrec]

/-- C9: whenever every captured event carries a `"level"` key but at least
one event's level value is a string naming no recognized level,
`filter_by_level` (for any threshold, hence also the
`infos`/`warnings`/`errors`/`criticals` wrappers) raises the
unknown-level-name error instead of returning a filtered list — filtering
is total only on lists whose events all carry recognized levels. -/
theorem filter_by_level_unknown (l : EventList) (t : Int)
    (hall : ∀ e ∈ l.events, ∃ v, getLevelValue e = .ok v)
    (hbad : ∃ e ∈ l.events, ∃ s, getLevelValue e = .ok (.str s) ∧
      nameToLevel (pyUpper s) = none) :
    ∃ s, l.filter_by_level (.int t) = .error ("Unknown level name " ++ s) ∧
      nameToLevel (pyUpper s) = none := by
  obtain ⟨s, hf, hns⟩ := filterEvents_unknown t l.events hall hbad
  exact ⟨s, by simp only [EventList.filter_by_level, level_to_number, hf], hns⟩

theorem filter_by_level_unknown_witness :
    ∃ s, EventList.filter_by_level ⟨[[("level", Value.str "bogus")]], false⟩ (.int 30) =
      .error ("Unknown level name " ++ s) ∧ nameToLevel (pyUpper s) = none :=
  filter_by_level_unknown ⟨[[("level", Value.str "bogus")]], false⟩ 30
    (fun e he => by
      simp at he
      subst he
      exact ⟨Value.str "bogus", rfl⟩)
    ⟨[("level", Value.str "bogus")], by simp, "bogus", rfl, rfl⟩
